import Mathlib

/-!
Verification of the satellite monitoring agent core: a shallow embedding, in Lean 4, of the agent runtime of the satellite
cluster-health monitoring agent (`agent/agent.go`, `monitoring/checkers.go`),
together with proofs of the behavioural properties claimed for it.

The embedding has two layers:

* a pure functional layer for the data model (`Probe`, `NodeStatus`,
  `MemberStatus`, `SystemStatus`, `Member`), the status-derivation helpers
  (`toMemberStatus`, `statusFromMember`, `unknownNodeStatus`,
  `emptyNodeStatus`), the check runner (`runChecks`), the local status
  collector (`collectLocalStatus`, `LocalStatus`) and the cluster status
  collector (`collectStatus` with its drain loop `drainNodes`);

* a discrete labelled-transition layer (`AgentSt`, `Label`, `exec`) for the
  temporal behaviour of `statusUpdateLoop`, `Close` and the published
  local-status slot: spawning a collection on a tick, waiting for the child
  context, deadline expiry, shutdown via the `done` channel, and the
  concurrent completion/publication of in-flight collections.

Functions whose bodies live in this repository but outside the `agent` and
`monitoring` packages (the `health` probe accumulator, the `agentpb` data
types, `setSystemStatus`, the member-state string constants) are modelled
from the specification; each such definition says so in its doc comment.
-/

set_option autoImplicit false
set_option linter.unusedVariables false

namespace Satellite

/-! ### Data model (modelled from the spec: the `agentpb` protobuf types are
not under `agent/` or `monitoring/`; shapes follow spec section 3). -/

/-- Probe status: `Running`, `Failed`, `Terminated` or `Unknown`. -/
inductive ProbeType where
  | Unknown
  | Running
  | Failed
  | Terminated
deriving DecidableEq, Repr

/-- Node-level health verdict. -/
inductive NodeStatusType where
  | Unknown
  | Healthy
  | Degraded
deriving DecidableEq, Repr

/-- Membership state of a cluster member as seen by the membership layer. -/
inductive MemberStatusType where
  | None
  | Alive
  | Leaving
  | Left
  | Failed
deriving DecidableEq, Repr

/-- Cluster-level health verdict. -/
inductive SystemStatusType where
  | Unknown
  | Healthy
  | Degraded
deriving DecidableEq, Repr

/-- A single check outcome. -/
structure Probe where
  checker : String
  status : ProbeType
  detail : String
  errorDetail : String
  timestamp : Nat
deriving DecidableEq, Repr

/-- Membership data derived for one member. -/
structure MemberStatus where
  name : String
  status : MemberStatusType
  tags : List (String × String)
  addr : String
deriving DecidableEq, Repr

/-- Rolled-up health of one node.  `memberStatus` is a nullable pointer in
the source, hence an `Option` here. -/
structure NodeStatus where
  name : String
  status : NodeStatusType
  memberStatus : Option MemberStatus
  probes : List Probe
deriving DecidableEq, Repr

/-- Rolled-up health of the whole cluster. -/
structure SystemStatus where
  status : SystemStatusType
  timestamp : Nat
  nodes : List NodeStatus
deriving DecidableEq, Repr

/-- A serf cluster member (`serf.Member`): name, address, port, a liveness
state reported as a string, and tags. -/
structure Member where
  name : String
  addr : String
  port : Nat
  status : String
  tags : List (String × String)
deriving DecidableEq, Repr

/-! ### Member status derivation (`agent/agent.go` lines 362-409) -/

/-- Modelled from the spec: the member-state string constants (`MemberAlive`
etc.) are declared in the `agent` package outside `agent.go`; spec section 6
gives the states `{Alive, Leaving, Left, Failed}` as reported by the
membership layer, which reports them in lower case. -/
def memberAlive : String := "alive"

/-- Modelled from the spec: see `memberAlive`. -/
def memberLeaving : String := "leaving"

/-- Modelled from the spec: see `memberAlive`. -/
def memberLeft : String := "left"

/-- Modelled from the spec: see `memberAlive`. -/
def memberFailed : String := "failed"

/-- Embeds `toMemberStatus` (`agent.go` lines 362-374): map the membership layer's
string state onto the `MemberStatus` enumeration, defaulting to `None`. -/
def toMemberStatus (status : String) : MemberStatusType :=
  if status = memberAlive then .Alive
  else if status = memberLeaving then .Leaving
  else if status = memberLeft then .Left
  else if status = memberFailed then .Failed
  else .None

/-- Embeds `statusFromMember` (`agent.go` lines 401-409): derive a `MemberStatus`
from a serf member record. -/
def statusFromMember (member : Member) : MemberStatus :=
  { name := member.name
    status := toMemberStatus member.status
    tags := member.tags
    addr := member.addr ++ ":" ++ toString member.port }

/-- Embeds `unknownNodeStatus` (`agent.go` lines 376-383): the `Unknown` node status
substituted for a member whose query failed. -/
def unknownNodeStatus (member : Member) : NodeStatus :=
  { name := member.name
    status := .Unknown
    memberStatus := some (statusFromMember member)
    probes := [] }

/-- Embeds `emptyNodeStatus` (`agent.go` lines 385-392): the placeholder node status
installed by `New`; only the names are set, everything else is zero. -/
def emptyNodeStatus (name : String) : NodeStatus :=
  { name := name
    status := .Unknown
    memberStatus := some { name := name, status := .None, tags := [], addr := "" }
    probes := [] }

/-- Embeds `emptySystemStatus` (`agent.go` lines 394-399). -/
def emptySystemStatus : SystemStatus :=
  { status := .Unknown, timestamp := 0, nodes := [] }

/-! ### Checkers and the probe accumulator -/

/-- A checker, shallowly: its name and the probes its `Check` reports to the
accumulator on this run.  The source dispatches through the `health.Checker`
interface; the agent consumes only the name and the reported probes. -/
structure Checker where
  name : String
  probes : List Probe
deriving DecidableEq, Repr

/-- Modelled from the spec: `health.Probes.Status` lives in the `health`
package, outside the sources at hand.  Spec section 4.1: any probe with
status other than `Running` gives `Degraded`; zero probes give `Unknown`;
otherwise `Healthy`. -/
def probesRollup (probes : List Probe) : NodeStatusType :=
  if probes.isEmpty then .Unknown
  else if probes.all (fun p => p.status = .Running) then .Healthy
  else .Degraded

/-- Embeds `runChecks` (`agent.go` lines 194-208): run every configured checker in
registry order against one shared accumulator and roll the probes up into a
`NodeStatus`.  The Go function receives a `context.Context` and never uses
it — checkers are invoked synchronously and are not interrupted on
cancellation; `ctxCanceled` is carried here to make that visible. -/
def runChecks (ctxCanceled : Bool) (checkers : List Checker) (name : String) : NodeStatus :=
  let reporter := checkers.foldl (fun acc c => acc ++ c.probes) []
  { name := name
    status := probesRollup reporter
    memberStatus := none
    probes := reporter }

/-! ### The agent record and the local status collector -/

/-- The fields of the `agent` struct (`agent.go` lines 124-155) that the
collection logic touches: the checker registry, the agent name and the
mutex-guarded `localStatus` slot. -/
structure Agent where
  checkers : List Checker
  name : String
  localStatus : NodeStatus
deriving DecidableEq, Repr

/-- Embeds `recentLocalStatus` (`agent.go` lines 355-360): take the lock, read the
`localStatus` slot, release the lock.  State-passing style: the returned
`Agent` is the post-state. -/
def recentLocalStatus (r : Agent) : NodeStatus × Agent :=
  (r.localStatus, r)

/-- Embeds `LocalStatus` (`agent.go` lines 187-190): delegates to
`recentLocalStatus`. -/
def LocalStatus (r : Agent) : NodeStatus × Agent :=
  recentLocalStatus r

/-- Embeds `collectLocalStatus` (`agent.go` lines 289-301): run the checks, attach
the member status derived from the local serf member, and publish the result
to the `localStatus` slot under the lock.  The `err` checked in the source
is never set on this path, so the function cannot fail. -/
def collectLocalStatus (ctxCanceled : Bool) (r : Agent) (localMember : Member) :
    NodeStatus × Agent :=
  let status := runChecks ctxCanceled r.checkers r.name
  let status := { status with memberStatus := some (statusFromMember localMember) }
  (status, { r with localStatus := status })

/-! ### Per-member queries and the cluster status collector -/

/-- What one fan-out goroutine learned about one member: exactly one of a
node status or an error (`statusResponse`, `agent.go` lines 342-348, whose
two nullable fields are set mutually exclusively). -/
inductive QueryOutcome where
  | ok (status : NodeStatus)
  | fail (e : String)
deriving DecidableEq, Repr

/-- Embeds `statusResponse` (`agent.go` lines 342-348). -/
structure StatusResponse where
  member : Member
  outcome : QueryOutcome
deriving DecidableEq, Repr

/-- Embeds `getLocalStatus` (`agent.go` lines 303-317): collect the local status and
wrap it in a response.  `collectLocalStatus` cannot fail (see there), so the
error branch of the source is dead and the outcome is always `ok`. -/
def getLocalStatus (ctxCanceled : Bool) (r : Agent) (localMember : Member) :
    StatusResponse × Agent :=
  let (status, r') := collectLocalStatus ctxCanceled r localMember
  ({ member := localMember, outcome := .ok status }, r')

/-- Embeds `getStatusFrom` (`agent.go` lines 319-340): dial the member and ask it
for its `LocalStatus`.  `remote` stands for the composition of `dialRPC`
and `client.LocalStatus`; a failure of either arm yields the error. -/
def getStatusFrom (remote : Member → Except String NodeStatus) (member : Member) :
    StatusResponse :=
  match remote member with
  | .ok status => { member := member, outcome := .ok status }
  | .error e => { member := member, outcome := .fail e }

/-- The fan-out of `collectStatus` (`agent.go` lines 261-271): one response
per member, produced by the local path for the member whose name matches the
agent's and by the RPC path otherwise.  In the source each response travels
through a channel buffered to the member count behind a wait-group barrier,
so while the agent is not shut down every member contributes exactly one
response; the arrival order is the channel order, not the member order. -/
def perMemberResponses (ctxCanceled : Bool)
    (remote : Member → Except String NodeStatus) (r : Agent)
    (members : List Member) : List StatusResponse :=
  members.map fun m =>
    if r.name = m.name then (getLocalStatus ctxCanceled r m).1
    else getStatusFrom remote m

/-- The drain loop of `collectStatus` (`agent.go` lines 275-283): each
response becomes one entry of `nodes`; a response carrying an error is
replaced by `unknownNodeStatus` for its member. -/
def drainNodes (responses : List StatusResponse) : List NodeStatus :=
  responses.map fun resp =>
    match resp.outcome with
    | .ok status => status
    | .fail _ => unknownNodeStatus resp.member

/-- Modelled from the spec: `setSystemStatus` (called at `agent.go` line 284)
is defined in the `agent` package outside `agent.go`.  Spec sections 3 and
4.4: `Healthy` iff every node is `Healthy` and every member `Alive`; if some
node is `Unknown` and none `Degraded`, `Unknown`; zero members give
`Unknown`; otherwise `Degraded`. -/
def systemRollup (nodes : List NodeStatus) : SystemStatusType :=
  if nodes.isEmpty then .Unknown
  else if nodes.all (fun n =>
      n.status = .Healthy ∧ (n.memberStatus.map MemberStatus.status = some .Alive)) then
    .Healthy
  else if (nodes.any (fun n => n.status = .Unknown)) ∧
      ¬ nodes.any (fun n => n.status = .Degraded) then
    .Unknown
  else .Degraded

/-- Modelled from the spec: see `systemRollup` — apply the rollup to the
collected nodes. -/
def setSystemStatus (s : SystemStatus) : SystemStatus :=
  { s with status := systemRollup s.nodes }

/-- Embeds `collectStatus` (`agent.go` lines 250-287): fail if the member
enumeration failed, otherwise build the `SystemStatus` stamped at entry from
the drained responses and apply the rollup.  `drain` is the sequence of
responses in channel-arrival order; theorems tie it to `perMemberResponses`
of the enumerated members where the claim depends on that. -/
def collectStatus (ts : Nat) (membersResult : Except String (List Member))
    (drain : List StatusResponse) : Except String SystemStatus :=
  match membersResult with
  | .error e => .error ("failed to query serf members: " ++ e)
  | .ok _ =>
      .ok (setSystemStatus
        { status := .Unknown, timestamp := ts, nodes := drainNodes drain })

/-- The body of one tick of `statusUpdateLoop` as it affects the cache
(`agent.go` lines 224-234): a collection error is logged and nothing is
written; a collected status is handed to `cache.UpdateStatus`.  The cache
and its write operation are abstract (`cache.Cache` is an external
contract). -/
def tickBody {α : Type} (collectResult : Except String SystemStatus)
    (write : SystemStatus → α → α) (cacheState : α) : α :=
  match collectResult with
  | .error _ => cacheState
  | .ok status => write status cacheState

/-- Embeds `Close` (`agent.go` lines 176-185) as seen by its caller: the RPC server
is stopped and the `done` channel closed unconditionally; the result is the
error of `serfClient.Close()` if any, and success otherwise. -/
def closeAgent (serfCloseErr : Option String) : Except String Unit :=
  match serfCloseErr with
  | some e => .error e
  | none => .ok ()

/-! ### The status-update loop as a labelled transition system

`statusUpdateLoop` (`agent.go` lines 216-248), `Close` (lines 176-185) and
the publication of local statuses by in-flight collections
(`collectLocalStatus`, lines 296-298) are concurrent; their temporal claims
are settled over a discrete transition system.  Time is a natural-number
clock advanced by an explicit step; the scheduler is the nondeterministic
choice of the next label.  Each label is annotated with the source behaviour
it models. -/

/-- Embeds `statusUpdateTimeout` (`agent.go` line 211), in seconds. -/
def statusUpdateTimeout : Nat := 30

/-- Embeds `statusQueryWaitTimeout` (`agent.go` line 214), in seconds. -/
def statusQueryWaitTimeout : Nat := 10

/-- One spawned `collectStatus` invocation: its identifier, the time its
goroutine was spawned, and the deadline of its child context
(`spawnedAt + statusQueryWaitTimeout`, `agent.go` line 223). -/
structure Collection where
  id : Nat
  spawnedAt : Nat
  deadline : Nat
deriving DecidableEq, Repr

/-- Where the `statusUpdateLoop` goroutine currently blocks:
`sleeping wake` models `<-r.clock.After(statusUpdateTimeout)` (the timer
fires at `wake`); `waiting d cid` models the inner `select` waiting on the
child context of collection `cid` with deadline `d`; `exited` means the loop
has returned. -/
inductive LoopPhase where
  | sleeping (wake : Nat)
  | waiting (deadline : Nat) (cid : Nat)
  | exited
deriving DecidableEq, Repr

/-- A snapshot held in the `localStatus` slot, together with the model-level
collection time of its probes (`stamp`). -/
structure LocalSnapshot where
  status : NodeStatus
  stamp : Nat
deriving DecidableEq, Repr

/-- The state of one agent process: the clock, the loop phase, the in-flight
collections (spawned and not yet returned), whether `close(r.done)` has
happened, the `localStatus` slot, the contexts cancelled by the loop on
shutdown, and a counter for fresh collection identifiers. -/
structure AgentSt where
  now : Nat
  phase : LoopPhase
  inflight : List Collection
  closed : Bool
  slot : Option LocalSnapshot
  cancelledCtx : List Nat
  nextId : Nat
  name : String
deriving DecidableEq, Repr

/-- The state right after `New` + `Start` (`agent.go` lines 112-121 and
157-163): clock at zero, loop asleep until the first tick, no collection in
flight, `done` open, and the slot holding `emptyNodeStatus name`. -/
def initSt (name : String) : AgentSt :=
  { now := 0
    phase := .sleeping statusUpdateTimeout
    inflight := []
    closed := false
    slot := some { status := emptyNodeStatus name, stamp := 0 }
    cancelledCtx := []
    nextId := 0
    name := name }

/-- Transition labels.  `finish cid pub` is the return of collection `cid`'s
goroutine; when `pub = some (ns, stamp)` its local-status leg ran
`collectLocalStatus`, publishing `ns` to the slot with probes collected at
`stamp` (necessarily between the spawn and the present). -/
inductive Label where
  | advance
  | tick
  | ctxExpire
  | ctxDone
  | finish (cid : Nat) (pub : Option (NodeStatus × Nat))
  | closeDone
  | exitLoop
deriving Repr

/-- One step of the system.  `none` means the label is not enabled in `s`.

* `advance` — the clock moves one second.
* `tick` — `agent.go` lines 222-226: the timer has fired and `done` is not
  closed; the loop derives a child context with deadline
  `now + statusQueryWaitTimeout`, spawns `collectStatus` on it and enters
  the inner `select`.
* `ctxExpire` — lines 236-239: the child context reaches its deadline while
  the collection is still running; the loop logs and re-enters the sleep.
  The collection goroutine is only signalled, not terminated, and stays in
  flight.
* `ctxDone` — lines 224-225 and 236: the spawned goroutine has returned, its
  deferred `cancel()` completed the context, and the loop re-enters the
  sleep.
* `finish` — the collection goroutine returns, optionally having published a
  local snapshot (lines 296-298); probe timestamps lie between the spawn
  time and now.  Publication is not guarded by `done`: a collection that
  overran, or that survives `Close`, still writes the slot.
* `closeDone` — `close(r.done)` inside `Close` (line 179).
* `exitLoop` — lines 240-242 and 244-245: with `done` closed the loop takes
  the `<-r.done` branch of whichever `select` it blocks in; from the inner
  `select` it first cancels the child context. -/
def exec (s : AgentSt) (l : Label) : Option AgentSt :=
  match l with
  | .advance => some { s with now := s.now + 1 }
  | .tick =>
      match s.phase with
      | .sleeping wake =>
          if s.closed then none
          else if wake ≤ s.now then
            some { s with
              phase := .waiting (s.now + statusQueryWaitTimeout) s.nextId
              inflight :=
                { id := s.nextId, spawnedAt := s.now
                  deadline := s.now + statusQueryWaitTimeout } :: s.inflight
              nextId := s.nextId + 1 }
          else none
      | _ => none
  | .ctxExpire =>
      match s.phase with
      | .waiting d _ =>
          if s.closed then none
          else if d ≤ s.now then
            some { s with phase := .sleeping (s.now + statusUpdateTimeout) }
          else none
      | _ => none
  | .ctxDone =>
      match s.phase with
      | .waiting _ cid =>
          if s.closed then none
          else if s.inflight.all (fun c => c.id ≠ cid) then
            some { s with phase := .sleeping (s.now + statusUpdateTimeout) }
          else none
      | _ => none
  | .finish cid pub =>
      match s.inflight.find? (fun c => c.id == cid) with
      | none => none
      | some c =>
          match pub with
          | none => some { s with inflight := s.inflight.filter (fun c => c.id ≠ cid) }
          | some (ns, stamp) =>
              if c.spawnedAt ≤ stamp ∧ stamp ≤ s.now then
                some { s with
                  inflight := s.inflight.filter (fun c => c.id ≠ cid)
                  slot := some { status := ns, stamp := stamp } }
              else none
  | .closeDone => if s.closed then none else some { s with closed := true }
  | .exitLoop =>
      if s.closed then
        match s.phase with
        | .sleeping _ => some { s with phase := .exited }
        | .waiting _ cid =>
            some { s with phase := .exited, cancelledCtx := cid :: s.cancelledCtx }
        | .exited => none
      else none

/-- Run a list of labels from a state. -/
def execTrace (s : AgentSt) : List Label → Option AgentSt
  | [] => some s
  | l :: ls =>
      match exec s l with
      | some s1 => execTrace s1 ls
      | none => none

/-- One enabled step, label abstracted. -/
def StepRel (s s1 : AgentSt) : Prop :=
  ∃ l, exec s l = some s1

/-- Reachability under `StepRel`. -/
def Reach (s s1 : AgentSt) : Prop :=
  Relation.ReflTransGen StepRel s s1

/-! ### Concrete fixtures used by counterexamples and witnesses -/

/-- A probe in the `Running` state, as an always-succeeding checker reports. -/
def okProbe : Probe :=
  { checker := "ok", status := .Running, detail := "", errorDetail := "", timestamp := 0 }

/-- A checker whose `Check` reports a single `Running` probe. -/
def okChecker : Checker := { name := "ok", probes := [okProbe] }

/-- A remote member in the `alive` membership state. -/
def memberB : Member :=
  { name := "b", addr := "10.0.0.2", port := 7496, status := "alive", tags := [] }

/-- A per-member result for `memberB` carrying a dial error. -/
def failResp : StatusResponse := { member := memberB, outcome := .fail "dial error" }

/-- An agent named `a` with the single `okChecker` installed. -/
def agentA : Agent :=
  { checkers := [okChecker], name := "a", localStatus := emptyNodeStatus "a" }

/-- A peer-RPC stub for which every dial fails. -/
def remoteFail : Member → Except String NodeStatus := fun _ => .error "unreachable"

/-! ### Trace-model helpers and fixtures -/

/-- The stamp of the snapshot currently served by `LocalStatus` reads. -/
def slotStamp (s : AgentSt) : Nat :=
  (s.slot.map LocalSnapshot.stamp).getD 0

/-- The local serf member record for agent `a`. -/
def memberA : Member :=
  { name := "a", addr := "10.0.0.1", port := 7496, status := "alive", tags := [] }

/-- The node status a local collection of `agentA` publishes. -/
def publishedA : NodeStatus := (collectLocalStatus false agentA memberA).1

/-- A trace of the status-update loop in which the collection spawned by the
first tick (id `0`, spawned at 30, context deadline 40) never returns: the
deadline expires, the loop re-enters its sleep, and the next tick at 70
spawns collection 1 while collection 0 is still in flight. -/
def overlapTrace : List Label :=
  List.replicate 30 .advance ++ [.tick] ++ List.replicate 10 .advance
    ++ [.ctxExpire] ++ List.replicate 30 .advance ++ [.tick]

/-! ### The loop invariant: only overrunning collections pile up -/

/-- What the loop phase guarantees about the in-flight collections:
while sleeping, every in-flight collection has already overrun its (by then
cancelled) deadline; while waiting on collection `cid`, every other
in-flight collection has overrun, and the awaited one carries the deadline
the loop waits on; after exit, the in-flight collections that have not
overrun all descend from the single collection last awaited, so they agree
on their identifier. -/
def PhaseInv : LoopPhase → Nat → List Collection → Prop
  | .sleeping _, now, inflight => ∀ c ∈ inflight, c.deadline ≤ now
  | .waiting d cid, now, inflight =>
      ∀ c ∈ inflight, (c.id = cid → c.deadline = d) ∧ (c.id ≠ cid → c.deadline ≤ now)
  | .exited, now, inflight =>
      ∀ c ∈ inflight, ∀ c1 ∈ inflight,
        now < c.deadline → now < c1.deadline → c.id = c1.id

/-- The loop invariant: collection identifiers are fresh and distinct, and
the phase constrains the in-flight collections as in `PhaseInv`. -/
def LoopInv (s : AgentSt) : Prop :=
  (∀ c ∈ s.inflight, c.id < s.nextId) ∧
  (s.inflight.map Collection.id).Nodup ∧
  PhaseInv s.phase s.now s.inflight

/-! ### C7 — monotonicity of served snapshots -/

/-- A continuation of `overlapTrace`: the fresh collection 1 publishes its
snapshot (probes collected at 70) and returns; the loop advances; then the
*stale* collection 0 — spawned at 30, long past its cancelled deadline —
finally publishes a snapshot whose probes were collected at 35, overwriting
the newer one. -/
def staleTail : List Label :=
  [.finish 1 (some (publishedA, 70)), .ctxDone] ++ List.replicate 10 .advance
    ++ [.finish 0 (some (publishedA, 35))]

/-- The collection the loop is waiting on has already returned (its deferred
`cancel` has fired or is about to). -/
def awaitedReturned (s : AgentSt) : Prop :=
  match s.phase with
  | .waiting _ cid => ∀ c ∈ s.inflight, c.id ≠ cid
  | _ => True

/-- A step of the disciplined system: as `exec`, except that the loop never
abandons a collection at its deadline — `ctxExpire` fires only once the
awaited collection has returned.  Traces of this relation are exactly the
executions in which every collection completes within its context deadline,
the regime in which collections never overlap. -/
def TimelyStep (s s1 : AgentSt) : Prop :=
  ∃ l, exec s l = some s1 ∧ (l = Label.ctxExpire → awaitedReturned s)

/-- Phase constraint along timely traces: the loop sleeps only with no
collection in flight, waits only on the sole in-flight collection, and after
exit all in-flight collections agree on their identifier. -/
def PhaseT : LoopPhase → List Collection → Prop
  | .sleeping _, l => l = []
  | .waiting _ cid, l => ∀ c ∈ l, c.id = cid
  | .exited, l => ∀ c ∈ l, ∀ c1 ∈ l, c.id = c1.id

/-- The invariant of timely traces: the served stamp never runs ahead of the
clock, every in-flight collection was spawned no earlier than the current
snapshot's stamp, and the phase constrains the in-flight set as in
`PhaseT`. -/
def TimelyInv (s : AgentSt) : Prop :=
  slotStamp s ≤ s.now ∧
  (∀ c ∈ s.inflight, slotStamp s ≤ c.spawnedAt) ∧
  PhaseT s.phase s.inflight

/-! ## Theorems -/

/-! ### Helper lemmas -/

/-- Folding checker probes onto an accumulator concatenates them in
iteration order. -/
theorem foldl_probes (l : List Checker) (acc : List Probe) :
    l.foldl (fun a c => a ++ c.probes) acc = acc ++ (l.map Checker.probes).flatten := by
  induction l generalizing acc with
  | nil => simp
  | cons c l ih => simp [List.foldl_cons, ih]

/-- The probes of a `runChecks` result, in registry order. -/
theorem runChecks_probes (ctxCanceled : Bool) (checkers : List Checker) (name : String) :
    (runChecks ctxCanceled checkers name).probes = (checkers.map Checker.probes).flatten := by
  simp [runChecks, foldl_probes]

/-- The rollup leaves the collected nodes untouched. -/
theorem setSystemStatus_nodes (s : SystemStatus) : (setSystemStatus s).nodes = s.nodes :=
  rfl

/-! ### C1 — failed member queries are substituted, not fatal -/

/-- C1: in `collectStatus`, every drained per-member result that carries an
error is replaced in the `nodes` sequence by an `Unknown` `NodeStatus`
carrying that member's derived `MemberStatus`, and `collectStatus` still
returns a `SystemStatus` without error. -/
theorem collectStatus_substitutes_unknown (ts : Nat) (members : List Member)
    (drain : List StatusResponse) :
    ∃ sys, collectStatus ts (.ok members) drain = .ok sys ∧
      ∀ resp ∈ drain, ∀ e, resp.outcome = .fail e →
        unknownNodeStatus resp.member ∈ sys.nodes ∧
        (unknownNodeStatus resp.member).memberStatus
          = some (statusFromMember resp.member) ∧
        (unknownNodeStatus resp.member).status = .Unknown := by
  refine ⟨_, rfl, ?_⟩
  intro resp hresp e he
  refine ⟨?_, rfl, rfl⟩
  show unknownNodeStatus resp.member ∈ (setSystemStatus _).nodes
  rw [setSystemStatus_nodes]
  show unknownNodeStatus resp.member ∈ drainNodes drain
  unfold drainNodes
  rw [List.mem_map]
  exact ⟨resp, hresp, by rw [he]⟩

/-- C1 witness: a one-member cluster whose only query failed still yields a
`SystemStatus` accounting for the failed member. -/
theorem collectStatus_substitutes_unknown_witness :
    ∃ sys, collectStatus 5 (.ok [memberB]) [failResp] = .ok sys ∧
      unknownNodeStatus memberB ∈ sys.nodes := by
  obtain ⟨sys, h1, h2⟩ := collectStatus_substitutes_unknown 5 [memberB] [failResp]
  exact ⟨sys, h1, (h2 failResp (by simp) "dial error" rfl).1⟩

/-! ### C2 — a member-enumeration failure aborts the cycle without a write -/

/-- C2: if the membership enumeration fails, `collectStatus` returns the
wrapped error (hence no `SystemStatus`), and the tick body leaves the status
cache exactly as it was — `cache.UpdateStatus` is not invoked. -/
theorem collectStatus_members_error (e : String) (ts : Nat)
    (drain : List StatusResponse) :
    collectStatus ts (.error e) drain
      = .error ("failed to query serf members: " ++ e) ∧
    ∀ (α : Type) (write : SystemStatus → α → α) (cacheState : α),
      tickBody (collectStatus ts (.error e) drain) write cacheState = cacheState :=
  ⟨rfl, fun _ _ _ => rfl⟩

/-! ### C3 — cancellation is *not* reflected as a "cancelled" probe -/

/-- C3 counterexample: `runChecks` receives the collection context but never
consults it.  With the context already cancelled, the single configured
checker still runs and reports its own `Running` probe; the resulting
`NodeStatus` contains no `Failed` probe at all and no probe whose cause is
"cancelled" — contradicting the claim that a checker outlasting cancellation
is reported as a `Failed` probe with cause "cancelled". -/
theorem runChecks_cancelled_no_failed_probe :
    (runChecks true [okChecker] "node-1").probes = [okProbe] ∧
    ((runChecks true [okChecker] "node-1").probes.all
      fun p => p.status != ProbeType.Failed) = true ∧
    ((runChecks true [okChecker] "node-1").probes.all
      fun p => p.errorDetail != "cancelled") = true := by
  refine ⟨rfl, by decide, by decide⟩

/-- C3 amended: `runChecks` ignores the supplied context entirely: its result
is the same whether or not the context is cancelled, and every checker's
probes appear in the output (no checker is ever silently omitted).  No
synthetic `Failed`/"cancelled" probe is produced; an uncancellable checker
simply blocks the collection instead. -/
theorem runChecks_ignores_ctx (ctxCanceled : Bool) (checkers : List Checker)
    (name : String) :
    runChecks ctxCanceled checkers name = runChecks false checkers name ∧
    ∀ c ∈ checkers, c.probes.Sublist (runChecks ctxCanceled checkers name).probes := by
  refine ⟨rfl, ?_⟩
  intro c hc
  rw [runChecks_probes]
  exact List.sublist_flatten_of_mem (List.mem_map_of_mem _ hc)

/-- C3 amended witness: the `okChecker` probes are contained in the output of
a run under a cancelled context. -/
theorem runChecks_ignores_ctx_witness :
    okChecker.probes.Sublist (runChecks true [okChecker] "node-1").probes :=
  (runChecks_ignores_ctx true [okChecker] "node-1").2 okChecker (by simp)

/-! ### C4 — one node per member -/

/-- C4: a successful collection cycle yields exactly one `NodeStatus` per
member enumerated at the start of the cycle, whether the member's query
succeeded or failed.  The hypothesis states the delivery guarantee of the
fan-out (`agent.go` lines 261-273): the drained responses are the
per-member responses, in some channel-arrival order. -/
theorem collectStatus_node_count (ctxCanceled : Bool)
    (remote : Member → Except String NodeStatus) (r : Agent) (ts : Nat)
    (members : List Member) (drain : List StatusResponse)
    (hdrain : drain.Perm (perMemberResponses ctxCanceled remote r members)) :
    ∃ sys, collectStatus ts (.ok members) drain = .ok sys ∧
      sys.nodes.length = members.length := by
  refine ⟨_, rfl, ?_⟩
  show (setSystemStatus _).nodes.length = _
  rw [setSystemStatus_nodes]
  show (drainNodes drain).length = _
  rw [drainNodes, List.length_map, hdrain.length_eq, perMemberResponses,
    List.length_map]

/-- C4 witness: one unreachable member still contributes one node. -/
theorem collectStatus_node_count_witness :
    ∃ sys,
      collectStatus 7 (.ok [memberB])
        (perMemberResponses false remoteFail agentA [memberB]) = .ok sys ∧
      sys.nodes.length = 1 := by
  obtain ⟨sys, h1, h2⟩ := collectStatus_node_count false remoteFail agentA 7
    [memberB] (perMemberResponses false remoteFail agentA [memberB]) (List.Perm.refl _)
  exact ⟨sys, h1, h2⟩

/-! ### C6 — LocalStatus is a pure read of the slot -/

/-- C6: `LocalStatus` returns exactly the value last stored in the
`localStatus` slot and returns the agent state unchanged; its result does
not depend on the checker registry, so no checker is run. -/
theorem LocalStatus_reads_slot (r : Agent) :
    LocalStatus r = (r.localStatus, r) ∧
    ∀ cks, (LocalStatus { r with checkers := cks }).1 = (LocalStatus r).1 :=
  ⟨rfl, fun _ => rfl⟩

/-! ### C9 — probe order is registry order -/

/-- C9: the probe sequence produced by a local collection is the
concatenation of the checkers' probes in registry iteration order; the
source runs the checkers serially, handing each the shared accumulator in
that order. -/
theorem runChecks_registry_order (ctxCanceled : Bool) (checkers : List Checker)
    (name : String) :
    (runChecks ctxCanceled checkers name).probes
      = (checkers.map Checker.probes).flatten :=
  runChecks_probes ctxCanceled checkers name

/-- Every step preserves the `closed` flag: once `close(r.done)` has
happened, the channel stays closed. -/
theorem exec_closed_mono {s s1 : AgentSt} {l : Label} (h : exec s l = some s1)
    (hc : s.closed = true) : s1.closed = true := by
  cases l <;> simp only [exec] at h <;> (repeat' split at h) <;>
    first
      | exact Option.noConfusion h
      | (injection h with h; subst h; simp_all)

/-- Every step preserves the non-emptiness of the `localStatus` slot: the
slot is written only by `finish` publications, which store a value. -/
theorem exec_slot_isSome {s s1 : AgentSt} {l : Label} (h : exec s l = some s1)
    (hs : s.slot.isSome = true) : s1.slot.isSome = true := by
  cases l <;> simp only [exec] at h <;> (repeat' split at h) <;>
    first
      | exact Option.noConfusion h
      | (injection h with h; subst h; simp_all)

/-! ### C10 — the local status slot is never empty -/

/-- C10: at every reachable point of the agent's lifetime the `localStatus`
slot holds a value (so `LocalStatus` never returns nil), and in the initial
state it is the `emptyNodeStatus` placeholder: the configured name, status
`Unknown`, a `MemberStatus` bearing only that name, and no probes. -/
theorem localStatus_slot_always_set (name : String) (s : AgentSt)
    (h : Reach (initSt name) s) :
    s.slot.isSome = true ∧
    (initSt name).slot = some { status := emptyNodeStatus name, stamp := 0 } ∧
    emptyNodeStatus name =
      { name := name, status := .Unknown
        memberStatus := some { name := name, status := .None, tags := [], addr := "" }
        probes := [] } := by
  refine ⟨?_, rfl, rfl⟩
  induction h with
  | refl => rfl
  | tail hstep hlast ih =>
      obtain ⟨l, hl⟩ := hlast
      exact exec_slot_isSome hl ih

/-- C10 witness: the freshly started agent `a`. -/
theorem localStatus_slot_always_set_witness :
    (initSt "a").slot.isSome = true ∧
    (initSt "a").slot = some { status := emptyNodeStatus "a", stamp := 0 } :=
  ⟨(localStatus_slot_always_set "a" (initSt "a") Relation.ReflTransGen.refl).1,
   (localStatus_slot_always_set "a" (initSt "a") Relation.ReflTransGen.refl).2.1⟩

/-! ### C8 — shutdown behaviour of the loop and of Close -/

/-- C8 counterexample: `Close` does not always return without error — it
propagates the error of the membership client's `Close` (`agent.go` lines
180-183), independently of the loop having shut down cleanly. -/
theorem closeAgent_propagates_serf_error :
    closeAgent (some "serf client close failed")
      = .error "serf client close failed" :=
  rfl

/-- C8 amended: closing the `done` channel makes the loop exit — with `done`
closed no tick can ever spawn a collection again and `closed` is permanent;
from the inner `select` the loop exits by cancelling the child collection
context; from the outer `select` it exits directly; and `Close` itself
returns without error provided the membership client closes without
error. -/
theorem close_shuts_down_loop :
    (∀ s : AgentSt, s.closed = true → exec s .tick = none) ∧
    (∀ s s1 : AgentSt, ∀ l : Label, exec s l = some s1 → s.closed = true →
      s1.closed = true) ∧
    (∀ s : AgentSt, ∀ d cid, s.closed = true → s.phase = .waiting d cid →
      ∃ s1, exec s .exitLoop = some s1 ∧ s1.phase = .exited ∧
        cid ∈ s1.cancelledCtx) ∧
    (∀ s : AgentSt, ∀ wake, s.closed = true → s.phase = .sleeping wake →
      ∃ s1, exec s .exitLoop = some s1 ∧ s1.phase = .exited) ∧
    closeAgent none = .ok () := by
  refine ⟨?_, ?_, ?_, ?_, rfl⟩
  · intro s hc
    simp only [exec]
    split <;> simp [hc]
  · intro s s1 l hl hc
    exact exec_closed_mono hl hc
  · intro s d cid hc hp
    refine ⟨{ s with phase := .exited, cancelledCtx := cid :: s.cancelledCtx },
      ?_, rfl, List.mem_cons_self _ _⟩
    simp [exec, hc, hp]
  · intro s wake hc hp
    refine ⟨{ s with phase := .exited }, ?_, rfl⟩
    simp [exec, hc, hp]

/-- C8 witness: a closed agent blocked in the inner `select` on collection 0
exits by cancelling context 0, and ticks are disabled. -/
theorem close_shuts_down_loop_witness :
    exec { initSt "a" with closed := true, phase := .waiting 40 0 } .tick
        = none ∧
    ∃ s1, exec { initSt "a" with closed := true, phase := .waiting 40 0 }
        .exitLoop = some s1 ∧ s1.phase = .exited ∧ 0 ∈ s1.cancelledCtx :=
  ⟨close_shuts_down_loop.1 _ rfl,
   close_shuts_down_loop.2.2.1 _ 40 0 rfl rfl⟩

/-! ### C5 — overlapping collections are reachable -/

/-- C5 counterexample: running `overlapTrace` from a fresh agent reaches, at
time 70, a state with *two* collections simultaneously in flight: collection
0 (spawned at 30, context deadline 40) overran its cancelled deadline and
never returned, and the tick at 70 spawned collection 1 beside it.  An
overrunning collection is only signalled through its context — `runChecks`
ignores the context — so cancellation does not prevent the overlap. -/
theorem statusLoop_overlap_reachable :
    execTrace (initSt "a") overlapTrace = some
      { now := 70
        phase := .waiting 80 1
        inflight := [{ id := 1, spawnedAt := 70, deadline := 80 },
                     { id := 0, spawnedAt := 30, deadline := 40 }]
        closed := false
        slot := some { status := emptyNodeStatus "a", stamp := 0 }
        cancelledCtx := []
        nextId := 2
        name := "a" } ∧
    (execTrace (initSt "a") overlapTrace).map (fun s => s.inflight.length)
      = some 2 :=
  ⟨rfl, rfl⟩

/-- Invariant `PhaseInv` survives the clock advancing. -/
theorem PhaseInv_advance {ph : LoopPhase} {now : Nat} {l : List Collection}
    (h : PhaseInv ph now l) : PhaseInv ph (now + 1) l := by
  cases ph with
  | sleeping w => exact fun c hc => Nat.le_succ_of_le (h c hc)
  | waiting d cid =>
      exact fun c hc => ⟨(h c hc).1, fun hne => Nat.le_succ_of_le ((h c hc).2 hne)⟩
  | exited =>
      exact fun c hc c1 hc1 h1 h2 =>
        h c hc c1 hc1 (Nat.lt_of_succ_lt h1) (Nat.lt_of_succ_lt h2)

/-- Invariant `PhaseInv` restricts to any subset of the in-flight collections. -/
theorem PhaseInv_subset {ph : LoopPhase} {now : Nat} {l1 l2 : List Collection}
    (hsub : ∀ c ∈ l1, c ∈ l2) (h : PhaseInv ph now l2) : PhaseInv ph now l1 := by
  cases ph with
  | sleeping w => exact fun c hc => h c (hsub c hc)
  | waiting d cid => exact fun c hc => h c (hsub c hc)
  | exited => exact fun c hc c1 hc1 => h c (hsub c hc) c1 (hsub c1 hc1)

/-- The invariant holds right after `Start`. -/
theorem loopInv_init (name : String) : LoopInv (initSt name) :=
  ⟨fun c hc => absurd hc (List.not_mem_nil c),
   List.nodup_nil,
   fun c hc => absurd hc (List.not_mem_nil c)⟩

/-- Every enabled step preserves the loop invariant. -/
theorem loopInv_step {s s1 : AgentSt} {l : Label} (h : exec s l = some s1)
    (hi : LoopInv s) : LoopInv s1 := by
  obtain ⟨hid, hnd, hph⟩ := hi
  cases l with
  | advance =>
      simp only [exec, Option.some.injEq] at h
      subst h
      exact ⟨hid, hnd, PhaseInv_advance hph⟩
  | tick =>
      simp only [exec] at h
      split at h
      · rename_i w heq
        split at h
        · exact absurd h (by simp)
        · split at h
          · rename_i hwake
            simp only [Option.some.injEq] at h
            subst h
            rw [heq] at hph
            refine ⟨?_, ?_, ?_⟩
            · intro c hc
              rcases List.mem_cons.1 hc with hc | hc
              · rw [hc]; exact Nat.lt_succ_self _
              · exact Nat.lt_succ_of_lt (hid c hc)
            · rw [List.map_cons, List.nodup_cons]
              refine ⟨?_, hnd⟩
              rw [List.mem_map]
              rintro ⟨c, hc, hcid⟩
              exact Nat.ne_of_lt (hid c hc) hcid
            · intro c hc
              rcases List.mem_cons.1 hc with hc | hc
              · subst hc
                exact ⟨fun _ => rfl, fun hne => absurd rfl hne⟩
              · exact ⟨fun hcid => absurd hcid (Nat.ne_of_lt (hid c hc)),
                  fun _ => hph c hc⟩
          · exact absurd h (by simp)
      · exact absurd h (by simp)
  | ctxExpire =>
      simp only [exec] at h
      split at h
      · rename_i d cid heq
        split at h
        · exact absurd h (by simp)
        · split at h
          · rename_i hdl
            simp only [Option.some.injEq] at h
            subst h
            rw [heq] at hph
            refine ⟨hid, hnd, ?_⟩
            intro c hc
            by_cases hcid : c.id = cid
            · exact le_trans (le_of_eq ((hph c hc).1 hcid)) hdl
            · exact (hph c hc).2 hcid
          · exact absurd h (by simp)
      · exact absurd h (by simp)
  | ctxDone =>
      simp only [exec] at h
      split at h
      · rename_i d cid heq
        split at h
        · exact absurd h (by simp)
        · split at h
          · rename_i hall
            simp only [Option.some.injEq] at h
            subst h
            rw [heq] at hph
            refine ⟨hid, hnd, ?_⟩
            intro c hc
            have hne : c.id ≠ cid := by simpa using List.all_eq_true.1 hall c hc
            exact (hph c hc).2 hne
          · exact absurd h (by simp)
      · exact absurd h (by simp)
  | finish cid pub =>
      simp only [exec] at h
      split at h
      · exact absurd h (by simp)
      · rename_i cfound heq
        have hsub : ∀ x ∈ s.inflight.filter (fun c => decide (c.id ≠ cid)),
            x ∈ s.inflight := fun x hx => (List.mem_filter.1 hx).1
        have hnd1 : ((s.inflight.filter
            (fun c => decide (c.id ≠ cid))).map Collection.id).Nodup :=
          List.Nodup.sublist (List.Sublist.map _ (List.filter_sublist _)) hnd
        split at h
        · simp only [Option.some.injEq] at h
          subst h
          exact ⟨fun x hx => hid x (hsub x hx), hnd1, PhaseInv_subset hsub hph⟩
        · split at h
          · simp only [Option.some.injEq] at h
            subst h
            exact ⟨fun x hx => hid x (hsub x hx), hnd1, PhaseInv_subset hsub hph⟩
          · exact absurd h (by simp)
  | closeDone =>
      simp only [exec] at h
      split at h
      · exact absurd h (by simp)
      · simp only [Option.some.injEq] at h
        subst h
        exact ⟨hid, hnd, hph⟩
  | exitLoop =>
      simp only [exec] at h
      split at h
      · split at h
        · rename_i w heq
          simp only [Option.some.injEq] at h
          subst h
          rw [heq] at hph
          refine ⟨hid, hnd, ?_⟩
          intro c hc c1 hc1 hlt hlt1
          exact absurd hlt (Nat.not_lt.2 (hph c hc))
        · rename_i d cid heq
          simp only [Option.some.injEq] at h
          subst h
          rw [heq] at hph
          refine ⟨hid, hnd, ?_⟩
          intro c hc c1 hc1 hlt hlt1
          have h1 : c.id = cid := by
            by_contra hne
            exact absurd hlt (Nat.not_lt.2 ((hph c hc).2 hne))
          have h2 : c1.id = cid := by
            by_contra hne
            exact absurd hlt1 (Nat.not_lt.2 ((hph c1 hc1).2 hne))
          rw [h1, h2]
        · exact absurd h (by simp)
      · exact absurd h (by simp)

/-- The loop invariant holds in every reachable state. -/
theorem loopInv_reach {name : String} {s : AgentSt} (h : Reach (initSt name) s) :
    LoopInv s := by
  induction h with
  | refl => exact loopInv_init name
  | tail hsteps hlast ih =>
      obtain ⟨l, hl⟩ := hlast
      exact loopInv_step hl ih

/-- A list whose elements satisfying `p` all agree on a duplicate-free key
has at most one element satisfying `p`. -/
theorem length_filter_le_one {α : Type} (key : α → Nat) (p : α → Bool)
    (l : List α) (hnd : (l.map key).Nodup)
    (hp : ∀ a ∈ l, ∀ b ∈ l, p a = true → p b = true → key a = key b) :
    (l.filter p).length ≤ 1 := by
  induction l with
  | nil => simp
  | cons x l ih =>
      rw [List.map_cons, List.nodup_cons] at hnd
      by_cases hx : p x = true
      · have hnil : l.filter p = [] := by
          rw [List.filter_eq_nil_iff]
          intro b hb hpb
          exact hnd.1 (List.mem_map.2 ⟨b, hb,
            hp b (List.mem_cons_of_mem _ hb) x (List.mem_cons_self _ _) hpb hx⟩)
        rw [List.filter_cons_of_pos hx, hnil]
        simp
      · rw [List.filter_cons_of_neg hx]
        exact ih hnd.2 fun a ha b hb =>
          hp a (List.mem_cons_of_mem _ ha) b (List.mem_cons_of_mem _ hb)

/-- Under the loop invariant, at most one in-flight collection has a live
(not yet reached) context deadline. -/
theorem live_le_one {s : AgentSt} (hi : LoopInv s) :
    (s.inflight.filter fun c => decide (s.now < c.deadline)).length ≤ 1 := by
  obtain ⟨hid, hnd, hph⟩ := hi
  refine length_filter_le_one Collection.id _ s.inflight hnd ?_
  intro a ha b hb hpa hpb
  have hla : s.now < a.deadline := of_decide_eq_true hpa
  have hlb : s.now < b.deadline := of_decide_eq_true hpb
  cases hp : s.phase with
  | sleeping w =>
      rw [hp] at hph
      exact absurd hla (Nat.not_lt.2 (hph a ha))
  | waiting d cid =>
      rw [hp] at hph
      have h1 : a.id = cid := by
        by_contra hne
        exact absurd hla (Nat.not_lt.2 ((hph a ha).2 hne))
      have h2 : b.id = cid := by
        by_contra hne
        exact absurd hlb (Nat.not_lt.2 ((hph b hb).2 hne))
      rw [h1, h2]
  | exited =>
      rw [hp] at hph
      exact hph a ha b hb hla hlb

/-- C5 amended: in every reachable state, at most one in-flight collection
still has a live context deadline.  A collection that overruns its deadline
has its context cancelled and the loop moves on — but the collection itself
is only signalled (local checks ignore the context), so it can remain in
flight and overlap the collection spawned by a later tick, as
reaching the final state of `overlapTrace` shows. -/
theorem at_most_one_undeadlined_collection (name : String) (s : AgentSt)
    (h : Reach (initSt name) s) :
    (s.inflight.filter fun c => decide (s.now < c.deadline)).length ≤ 1 :=
  live_le_one (loopInv_reach h)

/-- C5 amended witness: the freshly started agent. -/
theorem at_most_one_undeadlined_collection_witness :
    ((initSt "a").inflight.filter
      fun c => decide ((initSt "a").now < c.deadline)).length ≤ 1 :=
  at_most_one_undeadlined_collection "a" (initSt "a") Relation.ReflTransGen.refl

/-- C7 counterexample: after `overlapTrace ++ [finish 1 …]` the slot serves a
snapshot stamped 70; after the stale collection 0 publishes, a strictly
later `LocalStatus` read serves a snapshot stamped 35 — older than one
previously served.  Timestamps served by `LocalStatus` are therefore not
non-decreasing in general. -/
theorem LocalStatus_can_serve_older :
    (execTrace (initSt "a")
        (overlapTrace ++ [.finish 1 (some (publishedA, 70))])).map slotStamp
      = some 70 ∧
    (execTrace (initSt "a") (overlapTrace ++ staleTail)).map slotStamp
      = some 35 :=
  ⟨rfl, rfl⟩

/-- Constraint `PhaseT` restricts to subsets. -/
theorem PhaseT_subset {ph : LoopPhase} {l1 l2 : List Collection}
    (hsub : ∀ c ∈ l1, c ∈ l2) (h : PhaseT ph l2) : PhaseT ph l1 := by
  cases ph with
  | sleeping w =>
      have h2 : l2 = [] := h
      show l1 = []
      rw [List.eq_nil_iff_forall_not_mem]
      intro c hc
      rw [h2] at hsub
      exact absurd (hsub c hc) (List.not_mem_nil c)
  | waiting d cid => exact fun c hc => h c (hsub c hc)
  | exited => exact fun c hc c1 hc1 => h c (hsub c hc) c1 (hsub c1 hc1)

/-- One timely step preserves `TimelyInv` and never decreases the served
stamp. -/
theorem timely_step_inv {s s1 : AgentSt} (h : TimelyStep s s1)
    (hi : TimelyInv s) : TimelyInv s1 ∧ slotStamp s ≤ slotStamp s1 := by
  obtain ⟨l, hl, htimely⟩ := h
  obtain ⟨hstamp, hspawn, hph⟩ := hi
  cases l with
  | advance =>
      simp only [exec, Option.some.injEq] at hl
      subst hl
      exact ⟨⟨Nat.le_succ_of_le hstamp, hspawn, hph⟩, le_refl _⟩
  | tick =>
      simp only [exec] at hl
      split at hl
      · rename_i w heq
        split at hl
        · exact absurd hl (by simp)
        · split at hl
          · rename_i hwake
            simp only [Option.some.injEq] at hl
            subst hl
            rw [heq] at hph
            have hnil : s.inflight = [] := hph
            refine ⟨⟨hstamp, ?_, ?_⟩, le_refl _⟩
            · intro c hc
              rw [hnil] at hc
              rcases List.mem_cons.1 hc with hc | hc
              · rw [hc]; exact hstamp
              · exact absurd hc (List.not_mem_nil c)
            · show ∀ c ∈ _, _
              intro c hc
              rw [hnil] at hc
              rcases List.mem_cons.1 hc with hc | hc
              · rw [hc]
              · exact absurd hc (List.not_mem_nil c)
          · exact absurd hl (by simp)
      · exact absurd hl (by simp)
  | ctxExpire =>
      simp only [exec] at hl
      split at hl
      · rename_i d cid heq
        split at hl
        · exact absurd hl (by simp)
        · split at hl
          · simp only [Option.some.injEq] at hl
            subst hl
            have hret := htimely rfl
            rw [awaitedReturned, heq] at hret
            rw [heq] at hph
            have hnil : s.inflight = [] := by
              rw [List.eq_nil_iff_forall_not_mem]
              intro c hc
              exact hret c hc (hph c hc)
            refine ⟨⟨hstamp, hspawn, ?_⟩, le_refl _⟩
            show s.inflight = []
            exact hnil
          · exact absurd hl (by simp)
      · exact absurd hl (by simp)
  | ctxDone =>
      simp only [exec] at hl
      split at hl
      · rename_i d cid heq
        split at hl
        · exact absurd hl (by simp)
        · split at hl
          · rename_i hall
            simp only [Option.some.injEq] at hl
            subst hl
            rw [heq] at hph
            have hnil : s.inflight = [] := by
              rw [List.eq_nil_iff_forall_not_mem]
              intro c hc
              have hne : c.id ≠ cid := by
                simpa using List.all_eq_true.1 hall c hc
              exact hne (hph c hc)
            refine ⟨⟨hstamp, hspawn, ?_⟩, le_refl _⟩
            show s.inflight = []
            exact hnil
          · exact absurd hl (by simp)
      · exact absurd hl (by simp)
  | finish cid pub =>
      simp only [exec] at hl
      split at hl
      · exact absurd hl (by simp)
      · rename_i cfound heq
        have hcmem : cfound ∈ s.inflight := List.mem_of_find?_eq_some heq
        have hcid : cfound.id = cid := by
          simpa using List.find?_some heq
        have hsub : ∀ x ∈ s.inflight.filter (fun c => decide (c.id ≠ cid)),
            x ∈ s.inflight := fun x hx => (List.mem_filter.1 hx).1
        have hfilnil : ∀ x ∈ s.inflight.filter (fun c => decide (c.id ≠ cid)),
            False := by
          intro x hx
          have hxmem := (List.mem_filter.1 hx).1
          have hxne : x.id ≠ cid := by
            simpa using (List.mem_filter.1 hx).2
          cases hp : s.phase with
          | sleeping w =>
              rw [hp] at hph
              have hnil : s.inflight = [] := hph
              rw [hnil] at hxmem
              exact absurd hxmem (List.not_mem_nil x)
          | waiting d cid1 =>
              rw [hp] at hph
              exact hxne ((hph x hxmem).trans ((hph cfound hcmem).symm.trans hcid))
          | exited =>
              rw [hp] at hph
              exact hxne ((hph x hxmem cfound hcmem).trans hcid)
        split at hl
        · simp only [Option.some.injEq] at hl
          subst hl
          refine ⟨⟨hstamp, ?_, PhaseT_subset hsub hph⟩, le_refl _⟩
          intro c hc
          exact hspawn c (hsub c hc)
        · rename_i nsv stampv
          split at hl
          · rename_i hcond
            simp only [Option.some.injEq] at hl
            subst hl
            have hmono : slotStamp s ≤ stampv :=
              le_trans (hspawn cfound hcmem) hcond.1
            refine ⟨⟨hcond.2, ?_, PhaseT_subset hsub hph⟩, hmono⟩
            intro c hc
            exact absurd (hfilnil c hc) not_false
          · exact absurd hl (by simp)
  | closeDone =>
      simp only [exec] at hl
      split at hl
      · exact absurd hl (by simp)
      · simp only [Option.some.injEq] at hl
        subst hl
        exact ⟨⟨hstamp, hspawn, hph⟩, le_refl _⟩
  | exitLoop =>
      simp only [exec] at hl
      split at hl
      · split at hl
        · rename_i w heq
          simp only [Option.some.injEq] at hl
          subst hl
          rw [heq] at hph
          have hnil : s.inflight = [] := hph
          refine ⟨⟨hstamp, hspawn, ?_⟩, le_refl _⟩
          show ∀ c ∈ _, _
          intro c hc
          rw [hnil] at hc
          exact absurd hc (List.not_mem_nil c)
        · rename_i d cid heq
          simp only [Option.some.injEq] at hl
          subst hl
          rw [heq] at hph
          refine ⟨⟨hstamp, hspawn, ?_⟩, le_refl _⟩
          intro c hc c1 hc1
          exact (hph c hc).trans (hph c1 hc1).symm
        · exact absurd hl (by simp)
      · exact absurd hl (by simp)

/-- Invariant `TimelyInv` holds in the initial state. -/
theorem timelyInv_init (name : String) : TimelyInv (initSt name) :=
  ⟨Nat.le_refl 0, fun c hc => absurd hc (List.not_mem_nil c), rfl⟩

/-- Invariant `TimelyInv` holds in every state reachable by timely steps. -/
theorem timelyInv_reach {name : String} {s : AgentSt}
    (h : Relation.ReflTransGen TimelyStep (initSt name) s) : TimelyInv s := by
  induction h with
  | refl => exact timelyInv_init name
  | tail hsteps hlast ih => exact (timely_step_inv hlast ih).1

/-- C7 amended: along any execution in which every collection completes
within its context deadline (no collection abandoned at `ctxExpire` — the
regime where collections never overlap), the stamps of the snapshots served
by `LocalStatus` are non-decreasing: a later call never returns a snapshot
older than one previously served.  Without that discipline, an overrunning
collection may publish a stale snapshot late, as `LocalStatus_can_serve_older`
exhibits. -/
theorem LocalStatus_monotone_when_timely (name : String) (s s1 : AgentSt)
    (h1 : Relation.ReflTransGen TimelyStep (initSt name) s)
    (h2 : Relation.ReflTransGen TimelyStep s s1) :
    slotStamp s ≤ slotStamp s1 := by
  induction h2 with
  | refl => exact le_refl _
  | tail hsteps hlast ih =>
      exact le_trans ih (timely_step_inv hlast (timelyInv_reach (h1.trans hsteps))).2

/-- C7 amended witness: a concrete timely step (the clock advancing from the
start state) does not decrease the served stamp. -/
theorem LocalStatus_monotone_when_timely_witness :
    slotStamp (initSt "a") ≤ slotStamp { initSt "a" with now := 1 } :=
  LocalStatus_monotone_when_timely "a" (initSt "a") { initSt "a" with now := 1 }
    Relation.ReflTransGen.refl
    (Relation.ReflTransGen.single ⟨Label.advance, rfl, fun hc => Label.noConfusion hc⟩)

end Satellite
